import Mathlib

/-!
Verification of the logictree library: a tree of predicate leaves combined
under AND/OR operators into a single template-expression string.

Definitions are shallow embeddings of the Go source (`logictree.go` /
`part_000`): `Operator.Apply`, `NewLeaf`, `Tree.Combine`, `GetTemplate`.
The JSON codec is present in the repository only through its caller; it is
modelled from the specification (see the doc comments on `encode`/`decode`).
-/

namespace Logictree

/-- Operator defines how leaves are combined in a tree: the two constants
`OperatorAnd` and `OperatorOr` of the source. -/
inductive Operator
  | and
  | or
deriving DecidableEq

/-- Embedding of the Go `Operator.String` method: the lowercase name of the
operator.  The Go default branch panics, but the `Operator` type is closed
here, so the function is total on its domain. -/
def Operator.toString : Operator → String
  | .and => "and"
  | .or => "or"

/-- Embedding of `Operator.Apply`: combines `exprs` into an evaluate-able
string using the operator, with the source's four cases on the length. -/
def Operator.Apply (o : Operator) : List String → String
  | [] => ""
  | [e] => e
  | [e0, e1] => o.toString ++ " (" ++ e0 ++ ") (" ++ e1 ++ ")"
  | e0 :: rest => o.toString ++ " (" ++ e0 ++ ") (" ++ Operator.Apply o rest ++ ")"

/-- The tree: a `Leaf` holds the stored expression string; a `Node` holds an
operator and an ordered list of child trees (the `children` slice). -/
inductive Tree
  | leaf (expression : String)
  | node (op : Operator) (children : List Tree)

/-- Embedding of `NewLeaf`: stores the expression wrapped in parentheses. -/
def NewLeaf (expr : String) : Tree :=
  .leaf ("(" ++ expr ++ ")")

/-- The single library error value `ErrEmptyNode`. -/
inductive GoError
  | emptyNode
deriving DecidableEq

mutual

/-- Embedding of `Combine` on leaves and nodes.  Mirrors Go's
`(string, error)` return: a leaf returns its stored expression and `nil`;
a node with no children returns `("", ErrEmptyNode)`; otherwise the children
are combined in order (first failure aborts with `("", err)`) and the
collected strings are passed to `Apply`. -/
def Tree.Combine : Tree → String × Option GoError
  | .leaf e => (e, none)
  | .node op cs =>
    if cs.isEmpty then ("", some .emptyNode)
    else
      match combineList cs with
      | .error e => ("", some e)
      | .ok exprs => (op.Apply exprs, none)

/-- The child loop of `Node.Combine`: combine each child in order, returning
the first error encountered, else the ordered list of combined strings. -/
def combineList : List Tree → Except GoError (List String)
  | [] => .ok []
  | t :: ts =>
    match t.Combine with
    | (_, some e) => .error e
    | (s, none) =>
      match combineList ts with
      | .error e => .error e
      | .ok rest => .ok (s :: rest)

end

mutual

/-- A tree is well formed when every composite node in it has at least one
child (the invariant of the spec, checked by `Combine` at combination time). -/
def Tree.wellFormed : Tree → Bool
  | .leaf _ => true
  | .node _ cs => !cs.isEmpty && allWellFormed cs

/-- Conjunction of `wellFormed` over a list of child trees. -/
def allWellFormed : List Tree → Bool
  | [] => true
  | t :: ts => t.wellFormed && allWellFormed ts

end

mutual

/-- Instrumentation of `Combine`: the ordered list of `(operator, exprs)`
argument pairs passed to `Operator.Apply` during a run of `Combine`,
mirroring its control flow exactly (the empty-children early return performs
no call, a child failure aborts the loop, and the node's own call happens
only after all children succeeded). -/
def Tree.applyCalls : Tree → List (Operator × List String)
  | .leaf _ => []
  | .node op cs =>
    if cs.isEmpty then []
    else
      applyCallsList cs ++
        match combineList cs with
        | .error _ => []
        | .ok exprs => [(op, exprs)]

/-- Calls to `Apply` made while combining a child list in order, stopping at
the first failing child exactly as the loop in `Combine` does. -/
def applyCallsList : List Tree → List (Operator × List String)
  | [] => []
  | t :: ts =>
    match t.Combine with
    | (_, some _) => t.applyCalls
    | (_, none) => t.applyCalls ++ applyCallsList ts

end

mutual

/-- Every leaf of the tree stores a parenthesis-wrapped string, as the leaf
constructor `NewLeaf` guarantees for every tree built through the API. -/
def Tree.leavesWrapped : Tree → Prop
  | .leaf s => ∃ x, s = "(" ++ x ++ ")"
  | .node _ cs => allLeavesWrapped cs

/-- Conjunction of `leavesWrapped` over a list of child trees. -/
def allLeavesWrapped : List Tree → Prop
  | [] => True
  | t :: ts => t.leavesWrapped ∧ allLeavesWrapped ts

end

/-- The three-case recursion with no special two-element case, written from
the refinement claim to be compared with the source's `Operator.Apply`. -/
def applySimple (o : Operator) : List String → String
  | [] => ""
  | [e] => e
  | e0 :: rest => o.toString ++ " (" ++ e0 ++ ") (" ++ applySimple o rest ++ ")"

/-- Outcome of `GetTemplate`: a parsed template returned to the caller, a
combine error returned to the caller, or a panic raised by `template.Must`
when the external engine's parse fails.  `τ` is the engine's template type
and `ε` its parse-error type, both opaque to this library. -/
inductive TemplateResult (τ ε : Type)
  | ok (t : τ)
  | err (e : GoError)
  | panicked (pe : ε)

/-- Embedding of Go's `template.Must`: returns the template when the parse
succeeded and panics (here: the distinguished `panicked` outcome) when the
parse reported an error. -/
def Must {τ ε : Type} : Except ε τ → TemplateResult τ ε
  | .ok t => .ok t
  | .error e => .panicked e

/-- Embedding of `Node.GetTemplate`: combine the tree; on combine failure
return that error; on success wrap the string in the engine delimiters and
hand it to the external engine's parse through `template.Must`.  The external
parse is a parameter, since the engine is outside this library. -/
def GetTemplate {τ ε : Type} (parse : String → Except ε τ) (n : Tree) :
    TemplateResult τ ε :=
  match n.Combine with
  | (_, some e) => .err e
  | (s, none) => Must (parse ("\x7b\x7b " ++ s ++ " \x7d\x7d"))

/-- The serialized record of the codec: an operator tag (`"leaf"`, `"and"`
or `"or"`), an ordered list of child records (empty when absent), and the
raw leaf string (empty when absent), as in the spec's record schema. -/
inductive Record
  | mk (op : String) (nodes : List Record) (leafStr : String)

/-- Error raised by decode on a malformed record. -/
inductive CodecError
  | invalidRecord
deriving DecidableEq

mutual

/-- Modelled from the spec: the repository's JSON `encode` (MarshalJSON) is
not among the source files, only its caller; per the spec it is a structural
mapping, one record per tree node, carrying the operator tag, the encoded
children for a composite, and the stored (already wrapped) string for a
leaf. -/
def encode : Tree → Record
  | .leaf s => .mk "leaf" [] s
  | .node op cs => .mk op.toString (encodeList cs) ""

/-- Structural encoding of a list of child trees. -/
def encodeList : List Tree → List Record
  | [] => []
  | t :: ts => encode t :: encodeList ts

end

mutual

/-- Modelled from the spec: the repository's JSON `decode` (UnmarshalJSON) is
not among the source files, only its caller; per the spec a record tagged
`"leaf"` becomes a `Leaf` with the stored string, a record tagged `"and"` or
`"or"` with a non-empty child list becomes a composite with the recursively
decoded children, and an unrecognized tag or a composite tag with no children
fails with `InvalidRecordError`. -/
def decode : Record → Except CodecError Tree
  | .mk op ns lf =>
    if op = "leaf" then .ok (.leaf lf)
    else if op = "and" then
      match ns with
      | [] => .error .invalidRecord
      | _ :: _ =>
        match decodeList ns with
        | .error e => .error e
        | .ok cs => .ok (.node .and cs)
    else if op = "or" then
      match ns with
      | [] => .error .invalidRecord
      | _ :: _ =>
        match decodeList ns with
        | .error e => .error e
        | .ok cs => .ok (.node .or cs)
    else .error .invalidRecord

/-- Decoding of a list of child records, first failure aborting. -/
def decodeList : List Record → Except CodecError (List Tree)
  | [] => .ok []
  | r :: rs =>
    match decode r with
    | .error e => .error e
    | .ok t =>
      match decodeList rs with
      | .error e => .error e
      | .ok ts => .ok (t :: ts)

end

/-- A concrete external-engine parse that fails on every input, standing in
for `text/template`'s `Parse` rejecting an invalid produced string. -/
def parseFail : String → Except String String :=
  fun _ => .error "bad template"

/-! Helper lemmas shared by several claims. -/

lemma operator_toString_ne_empty (o : Operator) : o.toString ≠ "" := by
  cases o <;> simp [Operator.toString]

lemma string_append_ne_empty (a b : String) (h : a ≠ "") : a ++ b ≠ "" := by
  intro hc
  have hl := congrArg String.length hc
  simp [String.length_append] at hl
  exact h (by cases a with | mk d => cases d <;> simp_all)

lemma apply_ne_empty (o : Operator) (l : List String) (hne : l ≠ [])
    (hall : ∀ s ∈ l, s ≠ "") : o.Apply l ≠ "" := by
  match l with
  | [] => exact absurd rfl hne
  | [e] => simpa [Operator.Apply] using hall e (by simp)
  | [e0, e1] =>
    show o.toString ++ " (" ++ e0 ++ ") (" ++ e1 ++ ")" ≠ ""
    apply string_append_ne_empty
    apply string_append_ne_empty
    apply string_append_ne_empty
    apply string_append_ne_empty
    apply string_append_ne_empty
    exact operator_toString_ne_empty o
  | e0 :: e1 :: e2 :: rest =>
    show o.toString ++ " (" ++ e0 ++ ") (" ++
      Operator.Apply o (e1 :: e2 :: rest) ++ ")" ≠ ""
    apply string_append_ne_empty
    apply string_append_ne_empty
    apply string_append_ne_empty
    apply string_append_ne_empty
    apply string_append_ne_empty
    exact operator_toString_ne_empty o

lemma combineList_first_error (cs₂ : List Tree) (c : Tree) (e : GoError)
    (hc : (c.Combine).2 = some e) :
    ∀ cs₁ : List Tree, (∀ t ∈ cs₁, (t.Combine).2 = none) →
      combineList (cs₁ ++ c :: cs₂) = .error e := by
  intro cs₁
  induction cs₁ with
  | nil =>
    intro _
    obtain ⟨a, ha⟩ : ∃ a, c.Combine = (a, some e) :=
      ⟨(c.Combine).1, by rw [← hc]⟩
    simp only [List.nil_append, combineList, ha]
  | cons t ts ih =>
    intro hall
    obtain ⟨s, hs⟩ : ∃ s, t.Combine = (s, none) :=
      ⟨(t.Combine).1, by rw [← hall t (by simp)]⟩
    have ih' := ih (fun u hu => hall u (by simp [hu]))
    simp only [List.cons_append, combineList, hs, List.append_eq, ih']

lemma combineList_length (ts : List Tree) :
    ∀ l, combineList ts = .ok l → l.length = ts.length := by
  induction ts with
  | nil =>
    intro l h
    simp only [combineList, Except.ok.injEq] at h
    simp [← h]
  | cons t ts ih =>
    intro l h
    rcases hC : t.Combine with ⟨s, o⟩
    cases o with
    | some e =>
      simp only [combineList, hC] at h
      exact Except.noConfusion h
    | none =>
      rcases hL : combineList ts with e | rest
      · simp only [combineList, hC, hL] at h
        exact Except.noConfusion h
      · simp only [combineList, hC, hL, Except.ok.injEq] at h
        simp [← h, ih rest hL]

mutual

theorem combine_wf_aux : ∀ t : Tree, t.wellFormed = true →
    ∃ s, t.Combine = (s, none) ∧ (t.leavesWrapped → s ≠ "")
  | .leaf e => by
    intro _
    refine ⟨e, rfl, fun hw => ?_⟩
    simp only [Tree.leavesWrapped] at hw
    obtain ⟨x, hx⟩ := hw
    subst hx
    exact string_append_ne_empty _ _ (string_append_ne_empty _ _ (by decide))
  | .node op cs => by
    intro h
    simp only [Tree.wellFormed, Bool.and_eq_true, Bool.not_eq_true'] at h
    obtain ⟨l, hl, hlen, hne⟩ := combineList_wf_aux cs h.2
    refine ⟨op.Apply l, ?_, fun hw => ?_⟩
    · simp only [Tree.Combine, h.1, Bool.false_eq_true, if_false, hl]
    · simp only [Tree.leavesWrapped] at hw
      refine apply_ne_empty op l ?_ (hne hw)
      intro hnil
      rw [hnil] at hlen
      cases cs with
      | nil => simp at h
      | cons _ _ => simp at hlen

theorem combineList_wf_aux : ∀ ts : List Tree, allWellFormed ts = true →
    ∃ l, combineList ts = .ok l ∧ l.length = ts.length ∧
      (allLeavesWrapped ts → ∀ s ∈ l, s ≠ "")
  | [] => fun _ => ⟨[], rfl, rfl, fun _ s hs => absurd hs (by simp)⟩
  | t :: ts => by
    intro h
    simp only [allWellFormed, Bool.and_eq_true] at h
    obtain ⟨s, hsC, hsne⟩ := combine_wf_aux t h.1
    obtain ⟨l, hl, hlen, hne⟩ := combineList_wf_aux ts h.2
    refine ⟨s :: l, ?_, by simp [hlen], ?_⟩
    · simp only [combineList, hsC, hl]
    · intro hw u hu
      simp only [allLeavesWrapped] at hw
      rcases List.mem_cons.mp hu with hu | hu
      · subst hu
        exact hsne hw.1
      · exact hne hw.2 u hu

end

mutual

theorem applyCalls_wf_aux : ∀ t : Tree, t.wellFormed = true →
    ∀ p ∈ t.applyCalls, p.2 ≠ ([] : List String)
  | .leaf e => by
    intro _ p hp
    simp [Tree.applyCalls] at hp
  | .node op cs => by
    intro h p hp
    simp only [Tree.wellFormed, Bool.and_eq_true, Bool.not_eq_true'] at h
    obtain ⟨l, hl, hlen, _⟩ := combineList_wf_aux cs h.2
    simp only [Tree.applyCalls, h.1, Bool.false_eq_true, if_false, hl] at hp
    rcases List.mem_append.mp hp with hp | hp
    · exact applyCallsList_wf_aux cs h.2 p hp
    · have hpl : p = (op, l) := by simpa using hp
      subst hpl
      intro hnil
      simp only at hnil
      rw [hnil] at hlen
      cases cs with
      | nil => simp at h
      | cons _ _ => simp at hlen

theorem applyCallsList_wf_aux : ∀ ts : List Tree, allWellFormed ts = true →
    ∀ p ∈ applyCallsList ts, p.2 ≠ ([] : List String)
  | [] => by
    intro _ p hp
    simp [applyCallsList] at hp
  | t :: ts => by
    intro h p hp
    simp only [allWellFormed, Bool.and_eq_true] at h
    obtain ⟨s, hsC, _⟩ := combine_wf_aux t h.1
    simp only [applyCallsList, hsC] at hp
    rcases List.mem_append.mp hp with hp | hp
    · exact applyCalls_wf_aux t h.1 p hp
    · exact applyCallsList_wf_aux ts h.2 p hp

end

lemma decode_mk_and (r : Record) (rs : List Record) :
    decode (.mk "and" (r :: rs) "") =
      match decodeList (r :: rs) with
      | .error e => .error e
      | .ok cs => .ok (.node .and cs) := rfl

lemma decode_mk_or (r : Record) (rs : List Record) :
    decode (.mk "or" (r :: rs) "") =
      match decodeList (r :: rs) with
      | .error e => .error e
      | .ok cs => .ok (.node .or cs) := rfl

mutual

theorem decode_encode_aux : ∀ t : Tree, t.wellFormed = true →
    decode (encode t) = .ok t
  | .leaf s => fun _ => rfl
  | .node op cs => by
    intro h
    simp only [Tree.wellFormed, Bool.and_eq_true, Bool.not_eq_true'] at h
    have hdl : decodeList (encodeList cs) = .ok cs :=
      decodeList_encodeList_aux cs h.2
    cases cs with
    | nil => simp at h
    | cons c cs' =>
      have h2 : decodeList (encode c :: encodeList cs') = .ok (c :: cs') := hdl
      cases op with
      | and =>
        have h1 : encode (Tree.node .and (c :: cs')) =
            .mk "and" (encode c :: encodeList cs') "" := rfl
        rw [h1, decode_mk_and, h2]
      | or =>
        have h1 : encode (Tree.node .or (c :: cs')) =
            .mk "or" (encode c :: encodeList cs') "" := rfl
        rw [h1, decode_mk_or, h2]

theorem decodeList_encodeList_aux : ∀ ts : List Tree, allWellFormed ts = true →
    decodeList (encodeList ts) = .ok ts
  | [] => fun _ => rfl
  | t :: ts => by
    intro h
    simp only [allWellFormed, Bool.and_eq_true] at h
    have h1 : decode (encode t) = .ok t := decode_encode_aux t h.1
    have h2 : decodeList (encodeList ts) = .ok ts :=
      decodeList_encodeList_aux ts h.2
    show decodeList (encode t :: encodeList ts) = .ok (t :: ts)
    simp only [decodeList, h1, h2]

end

theorem apply_eq_applySimple_aux (o : Operator) :
    ∀ exprs, o.Apply exprs = applySimple o exprs
  | [] => rfl
  | [e] => rfl
  | [e0, e1] => rfl
  | e0 :: e1 :: e2 :: rest => by
    show o.toString ++ " (" ++ e0 ++ ") (" ++
        Operator.Apply o (e1 :: e2 :: rest) ++ ")" =
      o.toString ++ " (" ++ e0 ++ ") (" ++
        applySimple o (e1 :: e2 :: rest) ++ ")"
    rw [apply_eq_applySimple_aux o (e1 :: e2 :: rest)]

/-! The claim theorems. -/

/-- C1: `Operator.Apply` is exactly the case-defined recursion of the spec:
length 0 gives the empty string, length 1 the single element unchanged,
length 2 the binary form, and length greater than 2 the right-fold peeling
the first element, where the operator name is the lowercase `"and"` or
`"or"`. -/
theorem apply_cases (op : Operator) :
    op.Apply [] = "" ∧
    (∀ e, op.Apply [e] = e) ∧
    (∀ e0 e1, op.Apply [e0, e1] =
      op.toString ++ " (" ++ e0 ++ ") (" ++ e1 ++ ")") ∧
    (∀ e0 rest, 2 ≤ rest.length →
      op.Apply (e0 :: rest) =
        op.toString ++ " (" ++ e0 ++ ") (" ++ op.Apply rest ++ ")") ∧
    (op.toString = "and" ∨ op.toString = "or") := by
  refine ⟨rfl, fun e => rfl, fun e0 e1 => rfl, ?_, ?_⟩
  · intro e0 rest h
    match rest with
    | e1 :: e2 :: rs => rfl
  · cases op <;> simp [Operator.toString]

/-- Witness for C1 at the operator AND and the three-element input. -/
theorem apply_cases_witness :
    2 ≤ (["b", "c"] : List String).length ∧
    Operator.and.Apply ("a" :: ["b", "c"]) =
      Operator.and.toString ++ " (" ++ "a" ++ ") (" ++
        Operator.and.Apply ["b", "c"] ++ ")" :=
  ⟨by decide, (apply_cases Operator.and).2.2.2.1 "a" ["b", "c"] (by decide)⟩

/-- C2: the worked example tree combines successfully to exactly the string
given in the spec. -/
theorem example_tree_combine :
    (Tree.node .or
      [Tree.node .and
        [Tree.node .and [NewLeaf "ge .Milk 4", NewLeaf "le .Milk 6"],
         Tree.node .and [NewLeaf "ge .Onions 1", NewLeaf "le .Onions 2"]],
       NewLeaf "gt .Toothpaste 5"]).Combine =
    ("or (and (and ((ge .Milk 4)) ((le .Milk 6))) (and ((ge .Onions 1)) ((le .Onions 2)))) ((gt .Toothpaste 5))",
     none) := rfl

/-- C3: combining a composite node with an empty child list fails with
`ErrEmptyNode` for every operator; the result carries the empty string and
the error, so no logical identity value is substituted for the missing
children. -/
theorem empty_node_combine (op : Operator) :
    (Tree.node op []).Combine = ("", some GoError.emptyNode) := rfl

/-- Witness for C3 at the operator AND. -/
theorem empty_node_combine_witness :
    (Tree.node Operator.and []).Combine = ("", some GoError.emptyNode) :=
  empty_node_combine Operator.and

/-- C4: for every well-formed tree, decoding the encoding yields a tree
structurally equal to the original, and consequently it combines to the same
string (lossless round-trip of the codec). -/
theorem decode_encode_roundtrip (t : Tree) (h : t.wellFormed = true) :
    decode (encode t) = .ok t ∧
    Except.map Tree.Combine (decode (encode t)) = .ok t.Combine := by
  have h1 := decode_encode_aux t h
  exact ⟨h1, by rw [h1]; rfl⟩

/-- Witness for C4 at a concrete nested tree. -/
theorem decode_encode_roundtrip_witness :
    (Tree.node Operator.or
      [Tree.node Operator.and [NewLeaf "a"], NewLeaf "b"]).wellFormed = true ∧
    (decode (encode (Tree.node Operator.or
        [Tree.node Operator.and [NewLeaf "a"], NewLeaf "b"])) =
      .ok (Tree.node Operator.or
        [Tree.node Operator.and [NewLeaf "a"], NewLeaf "b"]) ∧
     Except.map Tree.Combine (decode (encode (Tree.node Operator.or
        [Tree.node Operator.and [NewLeaf "a"], NewLeaf "b"]))) =
      .ok (Tree.node Operator.or
        [Tree.node Operator.and [NewLeaf "a"], NewLeaf "b"]).Combine) :=
  ⟨rfl, decode_encode_roundtrip _ rfl⟩

/-- C5: during `Combine` of a composite node the children are combined in
list order; when the children before some position all succeed and the child
at that position fails with an error, the composite's `Combine` returns that
same error unchanged together with the empty string, aggregating nothing. -/
theorem node_combine_first_error (op : Operator) (cs₁ : List Tree) (c : Tree)
    (cs₂ : List Tree) (e : GoError)
    (h₁ : ∀ t ∈ cs₁, (t.Combine).2 = none) (hc : (c.Combine).2 = some e) :
    (Tree.node op (cs₁ ++ c :: cs₂)).Combine = ("", some e) := by
  have hne : (cs₁ ++ c :: cs₂).isEmpty = false := by
    cases cs₁ <;> simp
  simp only [Tree.Combine, hne, Bool.false_eq_true, if_false,
    combineList_first_error cs₂ c e hc cs₁ h₁]

/-- Witness for C5: an empty AND node failing in the middle of an OR node's
child list, with a succeeding leaf before and after it. -/
theorem node_combine_first_error_witness :
    (∀ t ∈ [NewLeaf "a"], (t.Combine).2 = none) ∧
    ((Tree.node Operator.and []).Combine).2 = some GoError.emptyNode ∧
    (Tree.node Operator.or
      ([NewLeaf "a"] ++ Tree.node Operator.and [] :: [NewLeaf "b"])).Combine =
      ("", some GoError.emptyNode) :=
  ⟨by simp [NewLeaf, Tree.Combine], rfl,
    node_combine_first_error Operator.or [NewLeaf "a"] (Tree.node Operator.and [])
      [NewLeaf "b"] GoError.emptyNode (by simp [NewLeaf, Tree.Combine]) rfl⟩

/-- C6: for every non-empty string, the leaf constructor stores exactly the
parenthesis-wrapped expression, and the leaf's `Combine` always succeeds and
returns that stored string verbatim. -/
theorem newLeaf_spec (x : String) (h : x ≠ "") :
    NewLeaf x = Tree.leaf ("(" ++ x ++ ")") ∧
    (NewLeaf x).Combine = ("(" ++ x ++ ")", none) :=
  ⟨rfl, rfl⟩

/-- Witness for C6 at the string given in the spec's testable property. -/
theorem newLeaf_spec_witness :
    ("x" : String) ≠ "" ∧
    (NewLeaf "x" = Tree.leaf ("(" ++ "x" ++ ")") ∧
      (NewLeaf "x").Combine = ("(" ++ "x" ++ ")", none)) :=
  ⟨by decide, newLeaf_spec "x" (by decide)⟩

/-- C7: decode fails with the recoverable `InvalidRecordError` value, rather
than aborting, on every record whose operator tag is unrecognized (not
`"leaf"`, `"and"` or `"or"`, e.g. `"xor"`), whatever its child list and
leaf string, and on every record tagged with a composite operator (AND/OR)
whose child list is empty or absent, whatever its leaf string. -/
theorem decode_invalid_records (op : String) (ns : List Record) (lf : String) :
    (op ≠ "leaf" → op ≠ "and" → op ≠ "or" →
      decode (.mk op ns lf) = .error CodecError.invalidRecord) ∧
    ((op = "and" ∨ op = "or") →
      decode (.mk op [] lf) = .error CodecError.invalidRecord) := by
  constructor
  · intro h1 h2 h3
    simp only [decode, if_neg h1, if_neg h2, if_neg h3]
  · rintro (rfl | rfl)
    · rfl
    · rfl

/-- Witness for C7: the tag `"xor"` with a child and a stray leaf string,
and the tag `"and"` with no children but a non-empty leaf string. -/
theorem decode_invalid_records_witness :
    (("xor" : String) ≠ "leaf" ∧ ("xor" : String) ≠ "and" ∧
      ("xor" : String) ≠ "or" ∧
      decode (.mk "xor" [Record.mk "leaf" [] "(x)"] "z") =
        .error CodecError.invalidRecord) ∧
    ((("and" : String) = "and" ∨ ("and" : String) = "or") ∧
      decode (.mk "and" [] "stray") = .error CodecError.invalidRecord) :=
  ⟨⟨by decide, by decide, by decide,
    (decode_invalid_records "xor" [Record.mk "leaf" [] "(x)"] "z").1
      (by decide) (by decide) (by decide)⟩,
   ⟨Or.inl rfl,
    (decode_invalid_records "and" [] "stray").2 (Or.inl rfl)⟩⟩

/-- C8 counterexample: with an external parse that rejects its input,
`GetTemplate` on a tree whose `Combine` succeeds ends in the panic outcome of
`template.Must`, and does not return the parse failure to the caller as an
error value; this refutes the claim that a parse failure is propagated to
the caller rather than turned into a process abort. -/
theorem getTemplate_parse_failure_panics :
    GetTemplate parseFail (Tree.node Operator.and [NewLeaf "x"]) =
      TemplateResult.panicked "bad template" ∧
    GetTemplate parseFail (Tree.node Operator.and [NewLeaf "x"]) ≠
      TemplateResult.err GoError.emptyNode :=
  ⟨rfl, fun h => nomatch h⟩

/-- C8 amended: `GetTemplate` on a tree whose `Combine` succeeds with string
`e` hands exactly the wrapper of `e` in the engine delimiters to the external
parse through `template.Must`; a `Combine` failure is returned to the caller
unchanged; and a failure of the external parse causes a panic (process
abort) through `template.Must` instead of being returned. -/
theorem getTemplate_spec {τ ε : Type} (parse : String → Except ε τ) (n : Tree) :
    (∀ s, n.Combine = (s, none) →
      GetTemplate parse n = Must (parse ("\x7b\x7b " ++ s ++ " \x7d\x7d"))) ∧
    (∀ a e, n.Combine = (a, some e) → GetTemplate parse n = .err e) ∧
    (∀ s pe, n.Combine = (s, none) →
      parse ("\x7b\x7b " ++ s ++ " \x7d\x7d") = .error pe →
      GetTemplate parse n = .panicked pe) := by
  refine ⟨?_, ?_, ?_⟩
  · intro s hs
    simp [GetTemplate, hs]
  · intro a e he
    simp [GetTemplate, he]
  · intro s pe hs hpe
    simp [GetTemplate, hs, hpe, Must]

/-- Witness for the amended C8: the panic outcome on a failing parse and the
returned error on a failing `Combine`, at concrete inputs. -/
theorem getTemplate_spec_witness :
    ((Tree.node Operator.and [NewLeaf "x"]).Combine = ("(x)", none) ∧
      parseFail ("\x7b\x7b " ++ "(x)" ++ " \x7d\x7d") = .error "bad template" ∧
      GetTemplate parseFail (Tree.node Operator.and [NewLeaf "x"]) =
        .panicked "bad template") ∧
    ((Tree.node Operator.and []).Combine = ("", some GoError.emptyNode) ∧
      GetTemplate parseFail (Tree.node Operator.and []) = .err GoError.emptyNode) :=
  ⟨⟨rfl, rfl,
    (getTemplate_spec parseFail (Tree.node Operator.and [NewLeaf "x"])).2.2
      "(x)" "bad template" rfl rfl⟩,
   ⟨rfl,
    (getTemplate_spec parseFail (Tree.node Operator.and [])).2.1
      "" GoError.emptyNode rfl⟩⟩

/-- C9: for every tree in which each composite node has at least one child,
no call to `Apply` made during `Combine` receives a zero-length sequence of
expressions, and (leaves being parenthesis-wrapped, as the leaf constructor
guarantees) `Combine` never returns the empty string on success. -/
theorem combine_no_empty_apply (t : Tree) (h : t.wellFormed = true) :
    (∀ p ∈ t.applyCalls, p.2 ≠ ([] : List String)) ∧
    (t.leavesWrapped → ∀ s, t.Combine = (s, none) → s ≠ "") := by
  constructor
  · exact applyCalls_wf_aux t h
  · intro hw s hs
    obtain ⟨s', hs', hne⟩ := combine_wf_aux t h
    have hss : s = s' := by
      have := hs.symm.trans hs'
      exact (Prod.mk.injEq _ _ _ _ ▸ this).1
    subst hss
    exact hne hw

/-- Witness for C9 at a two-leaf AND node. -/
theorem combine_no_empty_apply_witness :
    (Tree.node Operator.and [NewLeaf "a", NewLeaf "b"]).wellFormed = true ∧
    ((∀ p ∈ (Tree.node Operator.and [NewLeaf "a", NewLeaf "b"]).applyCalls,
        p.2 ≠ ([] : List String)) ∧
     ((Tree.node Operator.and [NewLeaf "a", NewLeaf "b"]).leavesWrapped →
       ∀ s, (Tree.node Operator.and [NewLeaf "a", NewLeaf "b"]).Combine =
        (s, none) → s ≠ "")) :=
  ⟨rfl, combine_no_empty_apply _ rfl⟩

/-- C10: the explicit length-2 case of `Apply` is redundant: `Apply` agrees
with the simpler three-case recursion `applySimple` on every operator and
every sequence of strings. -/
theorem apply_eq_applySimple :
    ∀ (o : Operator) (exprs : List String), o.Apply exprs = applySimple o exprs :=
  fun o exprs => apply_eq_applySimple_aux o exprs

end Logictree
